import Mathlib

/-!
Shallow embedding of the text-analysis core of the EDGAR filing service
(`src/main.py`, lines 388-509): section extraction, risk-factor
segmentation, keyword classification, MD&A highlight selection and
section diffing.  Texts are modelled as `List Char`; Python's `re`
module is modelled by a small backtracking matcher covering exactly the
regex fragment the source uses (literal characters, the character
classes appearing in the source patterns, greedy `*` and `+` over a
single-character atom, and an alternation of literal words).  Character
semantics (`\s`, `\d`, lower-casing, `str.strip`) are modelled at the
ASCII fragment; the filings and markers the service processes are ASCII.
-/

namespace Edgar

/-- ASCII whitespace, as matched by Python's `\s` and stripped by `str.strip`. -/
def pyWs (c : Char) : Bool :=
  c = ' ' || c = '\t' || c = '\n' || c = '\r' || c = '\x0b' || c = '\x0c'

/-- ASCII lower-casing, modelling Python's `str.lower` on the ASCII range. -/
def lowChar (c : Char) : Char :=
  if 'A' ≤ c ∧ c ≤ 'Z' then Char.ofNat (c.toNat + 32) else c

/-- Lower-case a text, modelling `text.lower()`. -/
def lowerL (s : List Char) : List Char := s.map lowChar

/-- Test that `w` is a leading run of `s` (used to model Python `in`). -/
def leadEq : List Char → List Char → Bool
  | [], _ => true
  | _ :: _, [] => false
  | a :: as, b :: bs => a = b && leadEq as bs

/-- Substring containment, modelling Python's `needle in hay`. -/
def occursIn (needle : List Char) : List Char → Bool
  | [] => leadEq needle []
  | hay@(_ :: rest) => leadEq needle hay || occursIn needle rest

/-- Python `str.strip()`: drop ASCII whitespace from both ends. -/
def stripL (s : List Char) : List Char :=
  ((s.dropWhile pyWs).reverse.dropWhile pyWs).reverse

/-! ### A backtracking matcher for the regex fragment used by the source -/

/-- Single-character regex atoms appearing in the source's patterns. -/
inductive Atom where
  /-- a literal character, matched case-sensitively -/
  | lit (c : Char)
  /-- a literal character matched with `re.IGNORECASE` -/
  | litNC (c : Char)
  /-- the `.` metacharacter — any character except a newline -/
  | dotA
  /-- the class `\s` -/
  | wsA
  /-- the class `\d` -/
  | digitA
  /-- the bullet class `[•·\-\*]` of the first risk pattern -/
  | bulletA
  /-- the class `[^\n]` -/
  | notNlA
  /-- the class `[A-Z]` -/
  | upperA
  /-- the class `[.!?]` -/
  | sentA
  /-- the class `[^.!?]` -/
  | notSentA
  /-- the trailing class `[.\s\-]` appended to section markers -/
  | punctA
deriving DecidableEq

def atomMatches : Atom → Char → Bool
  | .lit c, d => c = d
  | .litNC c, d => lowChar c = lowChar d
  | .dotA, d => d ≠ '\n'
  | .wsA, d => pyWs d
  | .digitA, d => d.isDigit
  | .bulletA, d => d = '•' || d = '·' || d = '-' || d = '*'
  | .notNlA, d => d ≠ '\n'
  | .upperA, d => 'A' ≤ d && d ≤ 'Z'
  | .sentA, d => d = '.' || d = '!' || d = '?'
  | .notSentA, d => !(d = '.' || d = '!' || d = '?')
  | .punctA, d => d = '.' || pyWs d || d = '-'

/-- One token of a pattern: an atom, a greedy `*` or `+` over an atom, or an
alternation of literal words (`(?:Risk|Uncertain|Threat|Challenge)`). -/
inductive Tok where
  | one (a : Atom)
  | star (a : Atom)
  | oneMore (a : Atom)
  | alts (ws : List (List Char))
deriving DecidableEq

/-- Does atom `a` match the character at position `i` of `s`? -/
def atomAt (s : List Char) (a : Atom) (i : Nat) : Bool :=
  match s.get? i with
  | some c => atomMatches a c
  | none => false

/-- Length of the maximal run of characters matching `a` starting at `i`. -/
def runLen (s : List Char) (a : Atom) (i : Nat) : Nat :=
  ((s.drop i).takeWhile (atomMatches a)).length

/-- Does the literal word `w` occur (case-sensitively) at position `i`? -/
def litAt (s : List Char) (w : List Char) (i : Nat) : Bool :=
  leadEq w (s.drop i)

/-- All end positions of matches of the token list at position `i`, in the
backtracking engine's preference order (greedy quantifiers try the longest
run first; alternations are tried left to right).  The head, when the list
is non-empty, is the match Python's `re` reports. -/
def matchList (s : List Char) : List Tok → Nat → List Nat
  | [], i => [i]
  | .one a :: rest, i =>
    if atomAt s a i then matchList s rest (i + 1) else []
  | .star a :: rest, i =>
    let n := runLen s a i
    ((List.range (n + 1)).map (fun j => i + (n - j))).flatMap (matchList s rest)
  | .oneMore a :: rest, i =>
    let n := runLen s a i
    ((List.range n).map (fun j => i + (n - j))).flatMap (matchList s rest)
  | .alts ws :: rest, i =>
    ws.flatMap (fun w => if litAt s w i then matchList s rest (i + w.length) else [])

/-- First `some` value of `f` over a list, in order. -/
def firstSome : List α → (α → Option β) → Option β
  | [], _ => none
  | a :: as, f =>
    match f a with
    | some b => some b
    | none => firstSome as f

/-- Match `pre` then the capture group `grp` at position `i`; on success
return `(capture start, match end)` for the backtracking-preferred match. -/
def capMatch (s : List Char) (pre grp : List Tok) (i : Nat) : Option (Nat × Nat) :=
  firstSome (matchList s pre i) fun mid =>
    match matchList s grp mid with
    | [] => none
    | e :: _ => some (mid, e)

/-- Leftmost match scan for `re.search`-style capture matching, by fuel:
try positions `i, i+1, ...`; on success return `(start, capture start, end)`. -/
def searchCapGo (s : List Char) (pre grp : List Tok) : Nat → Nat → Option (Nat × Nat × Nat)
  | 0, _ => none
  | fuel + 1, i =>
    if i ≤ s.length then
      match capMatch s pre grp i with
      | some (cs, e) => some (i, cs, e)
      | none => searchCapGo s pre grp fuel (i + 1)
    else none

/-- Non-overlapping scan of all matches, as `re.findall` performs: restart
after each match end (advancing by one on an empty match). -/
def findallGo (s : List Char) (pre grp : List Tok) : Nat → Nat → List (Nat × Nat × Nat)
  | 0, _ => []
  | fuel + 1, i =>
    match searchCapGo s pre grp (s.length + 1 - i) i with
    | none => []
    | some (st, cs, e) =>
      (st, cs, e) :: findallGo s pre grp fuel (if st < e then e else st + 1)

/-- Triples `(match start, capture start, capture end)` of every match, in scan order. -/
def findallSpans (s : List Char) (pre grp : List Tok) : List (Nat × Nat × Nat) :=
  findallGo s pre grp (s.length + 2) 0

/-- The slice `s[a:b]` of Python. -/
def slice (s : List Char) (a b : Nat) : List Char := (s.drop a).take (b - a)

/-- Model of `re.findall(pattern, s)` for a pattern split as `pre` then one capture
group `grp`: the list of captured substrings. -/
def findall (s : List Char) (pre grp : List Tok) : List (List Char) :=
  (findallSpans s pre grp).map fun t => slice s t.2.1 t.2.2

/-- Leftmost match of a group-free token list from position `i`:
`(match start, match end)`, modelling `pattern.search(s, i)`. -/
def searchGo (s : List Char) (toks : List Tok) : Nat → Nat → Option (Nat × Nat)
  | 0, _ => none
  | fuel + 1, i =>
    if i ≤ s.length then
      match matchList s toks i with
      | e :: _ => some (i, e)
      | [] => searchGo s toks fuel (i + 1)
    else none

def searchFrom (s : List Char) (toks : List Tok) (i : Nat) : Option (Nat × Nat) :=
  searchGo s toks (s.length + 1 - i) i

/-! ### The five core operations of `src/main.py` -/

/-- The compiled form of `f"{marker}[.\s\-]*"` under `re.IGNORECASE`.  The
marker string is interpolated into the pattern unescaped, so its characters
are parsed as regex syntax; the fragment modelled is literal characters plus
the `.` metacharacter (any character but a newline), which covers every
character class the service's markers can contain. -/
def markerToks (m : List Char) : List Tok :=
  m.map (fun c => if c = '.' then Tok.one Atom.dotA else Tok.one (Atom.litNC c))
    ++ [Tok.star Atom.punctA]

/-- Source function `extract_section_from_text(full_text, start_marker, end_marker)`:
search the lower-cased text for the start pattern; from the end of that
match, search for the end pattern; return the stripped slice in between
(to end-of-text when the end pattern has no match), or `""` when the start
pattern has no match. -/
def extract_section_from_text (full_text start_marker end_marker : List Char) :
    List Char :=
  match searchFrom (lowerL full_text) (markerToks start_marker) 0 with
  | none => []
  | some (_, start_idx) =>
    stripL (slice full_text start_idx
      (match searchFrom (lowerL full_text) (markerToks end_marker) start_idx with
       | some (es, _) => es
       | none => (lowerL full_text).length))

/-- Pattern `r'\n\s*[•·\-\*]\s*([^\n]+)'`, split before its capture group. -/
def pat1 : List Tok × List Tok :=
  ([.one (.lit '\n'), .star .wsA, .one .bulletA, .star .wsA], [.oneMore .notNlA])

/-- Pattern `r'\n\s*\d+\.\s*([^\n]+)'`, split before its capture group. -/
def pat2 : List Tok × List Tok :=
  ([.one (.lit '\n'), .star .wsA, .oneMore .digitA, .one (.lit '.'), .star .wsA],
   [.oneMore .notNlA])

/-- Pattern `r'\n\s*([A-Z][^.!?]*(?:Risk|Uncertain|Threat|Challenge)[^.!?]*[.!?])'`,
split before its capture group. -/
def pat3 : List Tok × List Tok :=
  ([.one (.lit '\n'), .star .wsA],
   [.one .upperA, .star .notSentA,
    .alts ["Risk".data, "Uncertain".data, "Threat".data, "Challenge".data],
    .star .notSentA, .one .sentA])

/-- The three segmentation patterns, in the source's order. -/
def riskPatterns : List (List Tok × List Tok) := [pat1, pat2, pat3]

/-- The ordered category table of `categorize_risk`. -/
def categories : List (String × List (List Char)) :=
  [("Cybersecurity", ["cyber".data, "data breach".data, "security".data, "hack".data]),
   ("Regulatory", ["regulation".data, "compliance".data, "legal".data, "law".data]),
   ("Market", ["market".data, "competition".data, "demand".data, "customer".data]),
   ("Financial", ["financial".data, "credit".data, "liquidity".data, "debt".data]),
   ("Operational", ["operation".data, "supply".data, "manufacturing".data, "production".data]),
   ("Technology", ["technology".data, "innovation".data, "obsolete".data, "intellectual property".data]),
   ("Environmental", ["climate".data, "environmental".data, "sustainability".data, "carbon".data])]

/-- The `for category, keywords in categories.items()` loop: return the first
category one of whose keywords occurs in the lower-cased text. -/
def firstCat : List (String × List (List Char)) → List Char → String
  | [], _ => "General"
  | (cat, kws) :: rest, tl =>
    if kws.any (fun kw => occursIn kw tl) then cat else firstCat rest tl

/-- Source function `categorize_risk(risk_text)`. -/
def categorize_risk (risk_text : List Char) : String :=
  firstCat categories (lowerL risk_text)

/-- Source function `assess_severity(risk_text)`. -/
def assess_severity (risk_text : List Char) : String :=
  let text_lower := lowerL risk_text
  if ["material adverse".data, "significant harm".data, "substantial loss".data].any
      (fun w => occursIn w text_lower) then "High"
  else if ["adverse".data, "negative".data, "impact".data].any
      (fun w => occursIn w text_lower) then "Medium"
  else "Low"

/-- One parsed risk factor: the dict
`{"risk": match.strip(), "category": ..., "severity": ...}`. -/
structure RiskEntry where
  risk : List Char
  category : String
  severity : String
deriving DecidableEq

/-- The entry built from one raw pattern match. -/
def mkRisk (m : List Char) : RiskEntry :=
  { risk := stripL m, category := categorize_risk m, severity := assess_severity m }

/-- Source function `parse_risk_factors(risk_text)`: for each pattern, take the first 20
matches, keep those whose raw captured text is longer than 50 characters,
and emit an entry for each; concatenate across patterns in order. -/
def parse_risk_factors (risk_text : List Char) : List RiskEntry :=
  riskPatterns.flatMap fun p =>
    (((findall risk_text p.1 p.2).take 20).filter (fun m => 50 < m.length)).map mkRisk

/-- Sentence delimiters of `re.split(r'[.!?]+', text)`. -/
def sentDelim (c : Char) : Bool := c = '.' || c = '!' || c = '?'

/-- Fuelled worker for `splitSents`; the fuel only bounds the recursion depth
and `splitSents` supplies enough for it never to run out. -/
def splitSentsGo : Nat → List Char → List (List Char)
  | _, [] => [[]]
  | 0, _ :: _ => [[]]
  | fuel + 1, c :: rest =>
    if sentDelim c then [] :: splitSentsGo fuel (rest.dropWhile sentDelim)
    else
      match splitSentsGo fuel rest with
      | [] => [[c]]
      | seg :: segs => (c :: seg) :: segs

/-- Model of `re.split(r'[.!?]+', text)`: the segments between maximal delimiter runs
(with empty segments at a leading or trailing delimiter, as `re.split`
produces). -/
def splitSents (s : List Char) : List (List Char) :=
  splitSentsGo s.length s

/-- The highlight keyword table of `extract_mda_highlights`. -/
def mdaKeywords : List (List Char) :=
  ["increased".data, "decreased".data, "grew".data, "declined".data, "improved".data,
   "deteriorated".data, "revenue".data, "profit".data, "margin".data, "growth".data,
   "performance".data]

/-- The qualification test of the highlight loop: a keyword occurs in the
lower-cased sentence and the sentence is longer than 50 characters. -/
def qualifies (sen : List Char) : Bool :=
  mdaKeywords.any (fun kw => occursIn kw (lowerL sen)) && 50 < sen.length

/-- The collection loop of `extract_mda_highlights`: append the stripped
sentence when it qualifies and break once five highlights are collected
(`k` is the number collected so far). -/
def collectH : List (List Char) → Nat → List (List Char)
  | [], _ => []
  | sen :: rest, k =>
    if qualifies sen then
      if 5 ≤ k + 1 then [stripL sen]
      else stripL sen :: collectH rest (k + 1)
    else collectH rest k

/-- Source function `extract_mda_highlights(mda_text)`: scan the first 100 sentences,
collecting up to five qualifying ones. -/
def extract_mda_highlights (mda_text : List Char) : List (List Char) :=
  collectH ((splitSents mda_text).take 100) 0

/-- The dict returned by `compare_text_sections`. -/
structure DiffResult where
  length_change : Int
  significant_change : Bool
deriving DecidableEq

/-- Source function `compare_text_sections(text1, text2)`.  Python evaluates
`abs(len(text2)-len(text1)) > len(text1) * 0.1` in floating point; the
comparison is modelled exactly as the rational inequality
`|Δ| > len(text1)/10`, stated over integers as `10·|Δ| > len(text1)`. -/
def compare_text_sections (text1 text2 : List Char) : DiffResult :=
  { length_change := (text2.length : Int) - (text1.length : Int),
    significant_change :=
      decide (text1.length < 10 * ((text2.length : Int) - (text1.length : Int)).natAbs) }

/-! ### Spec-side reference definitions

These follow the wording of the specification (the ordered keyword tests of
§4.3), to be compared against the definitions embedded from the source. -/

/-- The category assignment as the spec words it: test each category's
keyword list in the fixed order Cybersecurity, Regulatory, Market, Financial,
Operational, Technology, Environmental; first substring match wins; General
when none match. -/
def categorize_risk_spec (statement : List Char) : String :=
  let tl := lowerL statement
  if ["cyber".data, "data breach".data, "security".data, "hack".data].any
      (fun kw => occursIn kw tl) then "Cybersecurity"
  else if ["regulation".data, "compliance".data, "legal".data, "law".data].any
      (fun kw => occursIn kw tl) then "Regulatory"
  else if ["market".data, "competition".data, "demand".data, "customer".data].any
      (fun kw => occursIn kw tl) then "Market"
  else if ["financial".data, "credit".data, "liquidity".data, "debt".data].any
      (fun kw => occursIn kw tl) then "Financial"
  else if ["operation".data, "supply".data, "manufacturing".data, "production".data].any
      (fun kw => occursIn kw tl) then "Operational"
  else if ["technology".data, "innovation".data, "obsolete".data, "intellectual property".data].any
      (fun kw => occursIn kw tl) then "Technology"
  else if ["climate".data, "environmental".data, "sustainability".data, "carbon".data].any
      (fun kw => occursIn kw tl) then "Environmental"
  else "General"

/-- The severity assignment as the spec words it: High on the escalation
phrases, else Medium on the adverse phrases, else Low, tested in that order. -/
def assess_severity_spec (statement : List Char) : String :=
  let tl := lowerL statement
  if ["material adverse".data, "significant harm".data, "substantial loss".data].any
      (fun w => occursIn w tl) then "High"
  else if ["adverse".data, "negative".data, "impact".data].any
      (fun w => occursIn w tl) then "Medium"
  else "Low"

/-- A statement containing both "cyber" and "market". -/
def cyberMarketStmt : List Char := "Cyber attacks could disrupt our market position".data

/-- A statement containing both "material adverse" and "negative". -/
def highMediumStmt : List Char := "material adverse effects and negative outcomes".data

/-- Claim C1: category classification lower-cases the statement, tests the
keyword lists in the fixed order Cybersecurity, Regulatory, Market,
Financial, Operational, Technology, Environmental with first-substring-match
wins and General as fallback; in particular a statement containing both
"cyber" and "market" is classified Cybersecurity. -/
theorem claim_C1 :
    (∀ s : List Char, categorize_risk s = categorize_risk_spec s) ∧
    (occursIn "cyber".data (lowerL cyberMarketStmt) = true ∧
     occursIn "market".data (lowerL cyberMarketStmt) = true ∧
     categorize_risk cyberMarketStmt = "Cybersecurity") :=
  ⟨fun _ => rfl, by decide⟩

/-- Claim C2: severity is High when the lower-cased statement contains one of
the three escalation phrases, else Medium on "adverse"/"negative"/"impact",
else Low, with the High test evaluated first; in particular a statement
containing both "material adverse" and "negative" is classified High. -/
theorem claim_C2 :
    (∀ s : List Char, assess_severity s = assess_severity_spec s) ∧
    (occursIn "material adverse".data (lowerL highMediumStmt) = true ∧
     occursIn "negative".data (lowerL highMediumStmt) = true ∧
     assess_severity highMediumStmt = "High") :=
  ⟨fun _ => rfl, by decide⟩

/-- Bridge between the embedded significance test (stated over integers) and
the spec's exact-arithmetic threshold `len(text1) * 0.1`. -/
theorem significant_iff_rat (t1 t2 : List Char) :
    (compare_text_sections t1 t2).significant_change = true ↔
      (t1.length : ℚ) * (1 / 10) < |(t2.length : ℚ) - (t1.length : ℚ)| := by
  have E : ((((t2.length : Int) - (t1.length : Int)).natAbs : ℚ))
      = |(t2.length : ℚ) - (t1.length : ℚ)| := by
    rw [Int.cast_natAbs]
    push_cast
    rfl
  unfold compare_text_sections
  simp only [decide_eq_true_eq]
  constructor
  · intro h
    have h' : ((t1.length : ℚ)) <
        10 * ((((t2.length : Int) - (t1.length : Int)).natAbs : ℚ)) := by
      exact_mod_cast h
    rw [E] at h'
    linarith
  · intro h
    have h' : ((t1.length : ℚ)) <
        10 * ((((t2.length : Int) - (t1.length : Int)).natAbs : ℚ)) := by
      rw [E]
      linarith
    exact_mod_cast h'

/-- Claim C7: the diff reports `length_delta = len(text2) - len(text1)` and
`significant ↔ |length_delta| > len(text1) * 0.1`; with an empty first text
any non-empty second text is significant. -/
theorem claim_C7 :
    (∀ t1 t2 : List Char,
      (compare_text_sections t1 t2).length_change
          = (t2.length : Int) - (t1.length : Int) ∧
      ((compare_text_sections t1 t2).significant_change = true ↔
        (t1.length : ℚ) * (1 / 10) < |(t2.length : ℚ) - (t1.length : ℚ)|)) ∧
    (∀ t2 : List Char, t2 ≠ [] →
      (compare_text_sections [] t2).significant_change = true) := by
  refine ⟨fun t1 t2 => ⟨rfl, significant_iff_rat t1 t2⟩, fun t2 h => ?_⟩
  have hlen : t2.length ≠ 0 := by simpa [List.length_eq_zero] using h
  unfold compare_text_sections
  simp only [List.length_nil, Nat.cast_zero, sub_zero, Int.natAbs_ofNat,
    decide_eq_true_eq]
  omega

/-- Witness for the hypothesis-bearing part of C7. -/
theorem claim_C7_witness :
    ("x".data : List Char) ≠ [] ∧
      (compare_text_sections [] "x".data).significant_change = true :=
  ⟨by decide, claim_C7.2 "x".data (by decide)⟩

/-! ### Case-insensitivity of section markers (for C4) -/

theorem char_le_iff_toNat (a b : Char) : a ≤ b ↔ a.toNat ≤ b.toNat := by
  simp [Char.le_def, UInt32.le_def, BitVec.le_def]
  rfl

theorem char_toNat_ofNat (n : Nat) (h : n < 55296) : (Char.ofNat n).toNat = n := by
  unfold Char.ofNat
  rw [dif_pos (Or.inl h)]
  rfl

theorem char_ne_of_toNat_ne {a b : Char} (h : a.toNat ≠ b.toNat) : a ≠ b :=
  fun e => h (congrArg Char.toNat e)

theorem lowChar_toNat_of_upper {c : Char} (h : 'A' ≤ c ∧ c ≤ 'Z') :
    (lowChar c).toNat = c.toNat + 32 := by
  have h1 : 65 ≤ c.toNat := (char_le_iff_toNat 'A' c).1 h.1
  have h2 : c.toNat ≤ 90 := (char_le_iff_toNat c 'Z').1 h.2
  unfold lowChar
  rw [if_pos h]
  exact char_toNat_ofNat _ (by omega)

theorem lowChar_of_not_upper {c : Char} (h : ¬('A' ≤ c ∧ c ≤ 'Z')) :
    lowChar c = c := by
  unfold lowChar
  rw [if_neg h]

/-- ASCII lower-casing is idempotent. -/
theorem lowChar_lowChar (c : Char) : lowChar (lowChar c) = lowChar c := by
  by_cases h : 'A' ≤ c ∧ c ≤ 'Z'
  · have hn : (lowChar c).toNat = c.toNat + 32 := lowChar_toNat_of_upper h
    have h1 : 65 ≤ c.toNat := (char_le_iff_toNat 'A' c).1 h.1
    have h2 : c.toNat ≤ 90 := (char_le_iff_toNat c 'Z').1 h.2
    refine lowChar_of_not_upper fun hc => ?_
    have g1 := (char_le_iff_toNat 'A' (lowChar c)).1 hc.1
    have g2 := (char_le_iff_toNat (lowChar c) 'Z').1 hc.2
    have e1 : ('A').toNat = 65 := rfl
    have e2 : ('Z').toNat = 90 := rfl
    omega
  · rw [lowChar_of_not_upper h, lowChar_of_not_upper h]

/-- Lower-casing sends no character to `'.'` other than `'.'` itself. -/
theorem lowChar_eq_dot_iff (c : Char) : lowChar c = '.' ↔ c = '.' := by
  constructor
  · intro h
    by_cases hu : 'A' ≤ c ∧ c ≤ 'Z'
    · have h1 : 65 ≤ c.toNat := (char_le_iff_toNat 'A' c).1 hu.1
      have h2 : c.toNat ≤ 90 := (char_le_iff_toNat c 'Z').1 hu.2
      have hn : (lowChar c).toNat = c.toNat + 32 := lowChar_toNat_of_upper hu
      rw [h] at hn
      have e : ('.').toNat = 46 := rfl
      omega
    · rwa [lowChar_of_not_upper hu] at h
  · intro h
    subst h
    decide

/-- The per-character compilation step of `markerToks`. -/
def markerTok (c : Char) : Tok :=
  if c = '.' then Tok.one Atom.dotA else Tok.one (Atom.litNC c)

theorem markerToks_eq (m : List Char) :
    markerToks m = m.map markerTok ++ [Tok.star Atom.punctA] := rfl

theorem atomAt_litNC_lowChar (s : List Char) (c : Char) (i : Nat) :
    atomAt s (Atom.litNC (lowChar c)) i = atomAt s (Atom.litNC c) i := by
  unfold atomAt
  cases s.get? i with
  | none => rfl
  | some d => simp [atomMatches, lowChar_lowChar]

/-- Matching a marker pattern is invariant under lower-casing the marker. -/
theorem matchList_marker_lower (s : List Char) (m : List Char) (rest : List Tok) :
    ∀ i, matchList s ((lowerL m).map markerTok ++ rest) i
      = matchList s (m.map markerTok ++ rest) i := by
  induction m with
  | nil => intro i; rfl
  | cons c m' ih =>
    intro i
    show matchList s (markerTok (lowChar c) :: ((lowerL m').map markerTok ++ rest)) i
      = matchList s (markerTok c :: (m'.map markerTok ++ rest)) i
    by_cases hc : c = '.'
    · subst hc
      simp only [markerTok, show lowChar '.' = '.' from by decide, if_pos rfl]
      simp only [matchList, ih]
    · have hlc : ¬(lowChar c = '.') := fun h => hc ((lowChar_eq_dot_iff c).1 h)
      simp only [markerTok, if_neg hc, if_neg hlc]
      simp only [matchList, atomAt_litNC_lowChar, ih]

theorem searchGo_congr (s : List Char) {ta tb : List Tok}
    (h : ∀ j, matchList s ta j = matchList s tb j) :
    ∀ fuel i, searchGo s ta fuel i = searchGo s tb fuel i := by
  intro fuel
  induction fuel with
  | zero => intro i; rfl
  | succ n ih =>
    intro i
    simp only [searchGo, h i, ih]

theorem searchFrom_congr (s : List Char) {ta tb : List Tok}
    (h : ∀ j, matchList s ta j = matchList s tb j) (i : Nat) :
    searchFrom s ta i = searchFrom s tb i :=
  searchGo_congr s h _ i

/-- Extraction is invariant under lower-casing its markers. -/
theorem extract_lower_markers (t m1 m2 : List Char) :
    extract_section_from_text t m1 m2
      = extract_section_from_text t (lowerL m1) (lowerL m2) := by
  unfold extract_section_from_text
  rw [markerToks_eq m1, markerToks_eq (lowerL m1),
    markerToks_eq m2, markerToks_eq (lowerL m2),
    searchFrom_congr (lowerL t)
      (matchList_marker_lower (lowerL t) m1 [Tok.star Atom.punctA]) 0]
  cases searchFrom (lowerL t) (m1.map markerTok ++ [Tok.star Atom.punctA]) 0 with
  | none => rfl
  | some p =>
    obtain ⟨a, b⟩ := p
    simp only
    rw [searchFrom_congr (lowerL t)
      (matchList_marker_lower (lowerL t) m2 [Tok.star Atom.punctA]) b]

/-- Claim C4: section extraction matches its markers case-insensitively and
returns the trimmed substring between the end of the first start-marker
match and the first end-marker match after it, falling back to end-of-text;
in particular the spec's two worked examples hold. -/
theorem claim_C4 :
    (∀ t m1 m2 : List Char,
      extract_section_from_text t m1 m2
        = extract_section_from_text t (lowerL m1) (lowerL m2)) ∧
    extract_section_from_text "ITEM 1. Foo ITEM 1A. Bar".data
        "item 1".data "item 1a".data = "Foo".data ∧
    extract_section_from_text "Item 1. Foo bar baz".data
        "item 1".data "item 9".data = "Foo bar baz".data :=
  ⟨extract_lower_markers, by decide, by decide⟩

/-- Claim C9: comparing a text with itself reports a zero delta and no
significant change. -/
theorem claim_C9 :
    ∀ a : List Char, compare_text_sections a a = ⟨0, false⟩ := by
  intro a
  unfold compare_text_sections
  simp

/-- Claim C10: the markers of `extract_section_from_text` are interpolated
into the compiled pattern unescaped, hence read as regex syntax: the marker
"a.c" never occurs literally in "abc def", yet extraction with it as the
start marker returns a non-empty section. -/
theorem claim_C10 :
    occursIn "a.c".data "abc def".data = false ∧
      extract_section_from_text "abc def".data "a.c".data "zzz".data
        = "def".data := by
  constructor
  · decide
  · decide

/-! ### Provenance of parsed risk factors (for C5) -/

/-- The candidate captures the parser considers: for each pattern in order,
the first 20 matches (the per-pattern cap), before the length floor. -/
def capsAll (s : List Char) : List (List Char) :=
  riskPatterns.flatMap fun p => (findall s p.1 p.2).take 20

/-- Claim C5: every emitted risk entry arises from a considered capture
longer than 50 characters; captures of length at most 50 never contribute an
entry, for all three patterns. -/
theorem claim_C5 :
    ∀ (s : List Char) (e : RiskEntry), e ∈ parse_risk_factors s →
      ∃ m, m ∈ capsAll s ∧ 50 < m.length ∧ e = mkRisk m := by
  intro s e he
  unfold parse_risk_factors at he
  rw [List.mem_flatMap] at he
  obtain ⟨p, hp, he⟩ := he
  rw [List.mem_map] at he
  obtain ⟨m, hm, rfl⟩ := he
  rw [List.mem_filter] at hm
  obtain ⟨hm20, hlen⟩ := hm
  refine ⟨m, ?_, by simpa using hlen, rfl⟩
  unfold capsAll
  rw [List.mem_flatMap]
  exact ⟨p, hp, hm20⟩

/-- A text whose only bullet line is preceded by a newline. -/
def bulletSample : List Char := '\n' :: '•' :: ' ' :: List.replicate 52 'a'

/-- The entry the parser emits for `bulletSample`. -/
def bulletEntry : RiskEntry := ⟨List.replicate 52 'a', "General", "Low"⟩

/-- Witness for C5 at a concrete parsed entry. -/
theorem claim_C5_witness :
    bulletEntry ∈ parse_risk_factors bulletSample ∧
      ∃ m, m ∈ capsAll bulletSample ∧ 50 < m.length ∧ bulletEntry = mkRisk m :=
  ⟨by decide, claim_C5 bulletSample bulletEntry (by decide)⟩

/-! ### The highlight loop (for C6 and C8) -/

/-- The break-at-five collection loop equals "first five qualifying
sentences, stripped". -/
theorem collectH_eq_filter_take :
    ∀ (L : List (List Char)) (k : Nat), k < 5 →
      collectH L k = ((L.filter qualifies).take (5 - k)).map stripL := by
  intro L
  induction L with
  | nil => intro k _; simp [collectH]
  | cons sen rest ih =>
    intro k hk
    by_cases hq : qualifies sen
    · by_cases h5 : 5 ≤ k + 1
      · have hk4 : k = 4 := by omega
        subst hk4
        simp [collectH, hq, List.filter_cons]
      · have hs : 5 - k = (5 - (k + 1)) + 1 := by omega
        simp only [collectH, if_pos hq, if_neg h5, List.filter_cons, hq, ite_true,
          hs, List.take_succ_cons, List.map_cons]
        rw [ih (k + 1) (by omega)]
    · simp only [collectH, if_neg hq, List.filter_cons, hq, ite_false]
      exact ih k hk

/-- Claim C6: the highlight extractor returns exactly the first five
qualifying sentences of the first hundred, stripped; hence at most five
sentences, in source order (a sublist of the stripped sentence window). -/
theorem claim_C6 :
    ∀ s : List Char,
      extract_mda_highlights s
          = ((((splitSents s).take 100).filter qualifies).take 5).map stripL ∧
      (extract_mda_highlights s).length ≤ 5 ∧
      List.Sublist (extract_mda_highlights s)
        (((splitSents s).take 100).map stripL) := by
  intro s
  have h := collectH_eq_filter_take ((splitSents s).take 100) 0 (by omega)
  refine ⟨h, ?_, ?_⟩
  · unfold extract_mda_highlights
    rw [h]
    simp [List.length_take]
  · unfold extract_mda_highlights
    rw [h]
    exact List.Sublist.map stripL
      ((List.take_sublist _ _).trans (List.filter_sublist _))

/-- No qualifying sentence means no highlight. -/
theorem collectH_nil_of_none :
    ∀ (L : List (List Char)) (k : Nat),
      (∀ sen ∈ L, qualifies sen = false) → collectH L k = [] := by
  intro L
  induction L with
  | nil => intro k _; rfl
  | cons sen rest ih =>
    intro k h
    simp only [collectH, h sen (by simp), Bool.false_eq_true, ite_false]
    exact ih k fun x hx => h x (by simp [hx])

/-- Claim C8: the degenerate behaviours the spec promises in place of
errors: a missing start marker yields the empty string; an empty or
pattern-free risk text yields no candidates; a text with no qualifying
sentence yields no highlights; the empty statement classifies as
General / Low. -/
theorem claim_C8 :
    (∀ t m1 m2 : List Char,
      searchFrom (lowerL t) (markerToks m1) 0 = none →
        extract_section_from_text t m1 m2 = []) ∧
    (parse_risk_factors [] = [] ∧
     ∀ s : List Char, (∀ p ∈ riskPatterns, findall s p.1 p.2 = []) →
       parse_risk_factors s = []) ∧
    (∀ s : List Char,
      (∀ sen ∈ (splitSents s).take 100, qualifies sen = false) →
        extract_mda_highlights s = []) ∧
    (categorize_risk [] = "General" ∧ assess_severity [] = "Low") := by
  refine ⟨?_, ⟨by decide, ?_⟩, ?_, by decide, by decide⟩
  · intro t m1 m2 h
    unfold extract_section_from_text
    rw [h]
  · intro s h
    have h1 := h pat1 (by simp [riskPatterns])
    have h2 := h pat2 (by simp [riskPatterns])
    have h3 := h pat3 (by simp [riskPatterns])
    unfold parse_risk_factors
    rw [show riskPatterns = [pat1, pat2, pat3] from rfl]
    simp [h1, h2, h3]
  · intro s h
    exact collectH_nil_of_none _ 0 h

/-- Witness for C8 at concrete degenerate inputs. -/
theorem claim_C8_witness :
    (searchFrom (lowerL "no markers here".data)
        (markerToks "item 1".data) 0 = none ∧
      extract_section_from_text "no markers here".data
        "item 1".data "item 1a".data = []) ∧
    (parse_risk_factors [] = [] ∧
      ((∀ p ∈ riskPatterns, findall "plain text".data p.1 p.2 = []) ∧
        parse_risk_factors "plain text".data = [])) ∧
    ((∀ sen ∈ (splitSents "short text".data).take 100, qualifies sen = false) ∧
      extract_mda_highlights "short text".data = []) ∧
    (categorize_risk [] = "General" ∧ assess_severity [] = "Low") :=
  ⟨⟨by decide, claim_C8.1 _ _ _ (by decide)⟩,
   ⟨claim_C8.2.1.1, by decide, claim_C8.2.1.2 _ (by decide)⟩,
   ⟨by decide, claim_C8.2.2.1 _ (by decide)⟩,
   claim_C8.2.2.2⟩

/-! ### Pattern 1 requires a preceding newline (for C3) -/

/-- A bullet-prefixed line standing at the very start of a text: its content
after the bullet is 53 characters, well above the 50-character floor. -/
def bulletFirstLine : List Char := '•' :: ' ' :: List.replicate 52 'a'

theorem capMatch_pre_nonempty {s : List Char} {pre grp : List Tok} {i : Nat}
    {v : Nat × Nat} (h : capMatch s pre grp i = some v) :
    matchList s pre i ≠ [] := by
  intro hnil
  unfold capMatch at h
  rw [hnil] at h
  exact Option.noConfusion h

/-- A successful pattern-1 scaffold match sits on a newline character. -/
theorem matchList_pat1_newline {s : List Char} {i : Nat}
    (h : matchList s pat1.1 i ≠ []) : s.get? i = some '\n' := by
  by_cases ha : atomAt s (Atom.lit '\n') i
  · unfold atomAt at ha
    cases hg : s.get? i with
    | none => rw [hg] at ha; exact absurd ha (by simp)
    | some c =>
      rw [hg] at ha
      have hc : '\n' = c := by simpa [atomMatches] using ha
      rw [← hc]
  · exact absurd (by simp [pat1, matchList, ha]) h

theorem searchCapGo_some {s : List Char} {pre grp : List Tok} :
    ∀ {fuel i st cs e}, searchCapGo s pre grp fuel i = some (st, cs, e) →
      capMatch s pre grp st = some (cs, e) := by
  intro fuel
  induction fuel with
  | zero => intro i st cs e h; exact Option.noConfusion h
  | succ n ih =>
    intro i st cs e h
    unfold searchCapGo at h
    by_cases hb : i ≤ s.length
    · rw [if_pos hb] at h
      cases hc : capMatch s pre grp i with
      | none => rw [hc] at h; exact ih h
      | some v =>
        obtain ⟨cs', e'⟩ := v
        rw [hc] at h
        injection h with h1
        injection h1 with h2 h3
        subst h2
        rw [← h3]
        exact hc
    · rw [if_neg hb] at h
      exact Option.noConfusion h

theorem findallGo_mem {s : List Char} {pre grp : List Tok} :
    ∀ {fuel i st cs e}, (st, cs, e) ∈ findallGo s pre grp fuel i →
      capMatch s pre grp st = some (cs, e) := by
  intro fuel
  induction fuel with
  | zero => intro i st cs e h; exact absurd h (List.not_mem_nil _)
  | succ n ih =>
    intro i st cs e h
    unfold findallGo at h
    cases hc : searchCapGo s pre grp (s.length + 1 - i) i with
    | none => rw [hc] at h; exact absurd h (List.not_mem_nil _)
    | some v =>
      obtain ⟨st', cs', e'⟩ := v
      rw [hc] at h
      rcases List.mem_cons.1 h with heq | htail
      · injection heq with h1 h2
        injection h2 with h2 h3
        subst h1; subst h2; subst h3
        exact searchCapGo_some hc
      · exact ih htail

/-- Counterexample to C3 as stated: the first line of `bulletFirstLine`
begins with a bullet and its content is longer than 50 characters, yet the
first segmentation pattern produces no match there and the parser returns
no candidate at all. -/
theorem claim_C3_counterexample :
    bulletFirstLine.get? 0 = some '•' ∧
      50 < (bulletFirstLine.drop 2).length ∧
      findall bulletFirstLine pat1.1 pat1.2 = [] ∧
      parse_risk_factors bulletFirstLine = [] := by
  refine ⟨rfl, by decide, by decide, by decide⟩

/-- Claim C3 as amended: the first segmentation pattern matches only where a
newline precedes the bullet structure — every match of pattern 1 starts at a
newline character — so a bullet-prefixed first line yields no candidate,
while the same line preceded by a newline yields its content as a
candidate. -/
theorem claim_C3_amended :
    (∀ (s : List Char) (st cs e : Nat),
      (st, cs, e) ∈ findallSpans s pat1.1 pat1.2 → s.get? st = some '\n') ∧
    findall ('\n' :: bulletFirstLine) pat1.1 pat1.2 = [List.replicate 52 'a'] ∧
    findall bulletFirstLine pat1.1 pat1.2 = [] := by
  refine ⟨?_, by decide, by decide⟩
  intro s st cs e h
  exact matchList_pat1_newline (capMatch_pre_nonempty (findallGo_mem h))

/-- Witness for the hypothesis-bearing part of the amended C3. -/
theorem claim_C3_witness :
    (0, 3, 55) ∈ findallSpans ('\n' :: bulletFirstLine) pat1.1 pat1.2 ∧
      ('\n' :: bulletFirstLine).get? 0 = some '\n' :=
  ⟨by decide, claim_C3_amended.1 ('\n' :: bulletFirstLine) 0 3 55 (by decide)⟩

end Edgar
